import Mathlib

/-!
Verification of the drive wagering platform core: provably-fair crash
mathematics, the balance ledger, the crash and shootout game services,
and the withdrawal reconciliation path.  Machine integers and amounts
are modelled as exact rationals, JavaScript Math.floor as the integer
floor, and database transactions as pure state-transition functions.
-/

namespace Drive

/-! ## Hex parsing (JavaScript parseInt(s, 16) on hex strings) -/

/-- Value of one hexadecimal digit, working on the character code the way
parseInt does; non-hex characters contribute 0 (theorems about digests
only ever need hex input). -/
def hexVal (c : Char) : ℕ :=
  if 48 ≤ c.toNat ∧ c.toNat ≤ 57 then c.toNat - 48
  else if 97 ≤ c.toNat ∧ c.toNat ≤ 102 then c.toNat - 97 + 10
  else if 65 ≤ c.toNat ∧ c.toNat ≤ 70 then c.toNat - 65 + 10
  else 0

/-- Big-endian value of a list of hex characters. -/
def parseHexList (l : List Char) : ℕ :=
  l.foldl (fun acc c => 16 * acc + hexVal c) 0

/-- Big-endian value of a hex string, as parseInt(s, 16) computes it. -/
def parseHexNat (s : String) : ℕ :=
  parseHexList s.data

theorem hexVal_lt_16 (c : Char) : hexVal c < 16 := by
  unfold hexVal
  split
  · omega
  split
  · omega
  split
  · omega
  · omega

theorem foldl_hex_lt (l : List Char) (n acc : ℕ) (h : acc < 16 ^ n) :
    l.foldl (fun acc c => 16 * acc + hexVal c) acc < 16 ^ (n + l.length) := by
  induction l generalizing acc n with
  | nil => simpa using h
  | cons c cs ih =>
    simp only [List.foldl_cons, List.length_cons]
    have hc := hexVal_lt_16 c
    have hstep : 16 * acc + hexVal c < 16 ^ (n + 1) := by
      have h16 : 16 * acc + 16 ≤ 16 * 16 ^ n := by omega
      calc 16 * acc + hexVal c < 16 * acc + 16 := by omega
        _ ≤ 16 * 16 ^ n := h16
        _ = 16 ^ (n + 1) := by ring
    have hrec := ih (n + 1) (16 * acc + hexVal c) hstep
    have harith : n + 1 + cs.length = n + (cs.length + 1) := by omega
    rwa [harith] at hrec

/-- The value of a list of at most k hex characters is below 16 to the k. -/
theorem parseHexList_lt (l : List Char) (k : ℕ) (hlen : l.length ≤ k) :
    parseHexList l < 16 ^ k := by
  have h0 : (0 : ℕ) < 16 ^ 0 := by norm_num
  have h := foldl_hex_lt l 0 0 h0
  unfold parseHexList
  calc l.foldl (fun acc c => 16 * acc + hexVal c) 0 < 16 ^ (0 + l.length) := h
    _ ≤ 16 ^ k := by
        apply Nat.pow_le_pow_right (by norm_num)
        omega

/-! ## src/lib/game/crash-math.ts -/

namespace CrashMath

/-- calculatePayout: Math.floor(wager * multiplier * 10000) / 10000. -/
def calculatePayout (wager multiplier : ℚ) : ℚ :=
  (⌊wager * multiplier * 10000⌋ : ℚ) / 10000

/-- calculateProfit: calculatePayout minus the wager. -/
def calculateProfit (wager multiplier : ℚ) : ℚ :=
  calculatePayout wager multiplier - wager

/-- getCrashPointFromHash from src/lib/game/crash-math.ts: the first 13 hex
characters of the digest (hash.slice(0, 13)) give a 52-bit integer; below
maxValue * houseEdge the game crashes instantly at 1.00, otherwise the
remaining probability mass is rescaled and mapped through the
inverse-exponential curve, floored to two decimals and clamped from below
at 1.00. -/
def getCrashPointFromHash (hash : String) (houseEdge : ℚ) : ℚ :=
  let hashInt : ℕ := parseHexList (hash.data.take 13)
  let maxValue : ℚ := 2 ^ 52
  if (hashInt : ℚ) < maxValue * houseEdge then 1
  else
    let adjustedHash := ((hashInt : ℚ) - maxValue * houseEdge) / (maxValue * (1 - houseEdge))
    let crashPoint := 1 / (1 - adjustedHash * (99 / 100))
    max 1 ((⌊crashPoint * 100⌋ : ℚ) / 100)

end CrashMath

/-- Truncation (not rounding) to two decimal places, as the spec words it. -/
def truncate2 (q : ℚ) : ℚ := (⌊q * 100⌋ : ℚ) / 100

/-- The crash-point computation exactly as the specification describes it,
as a function of the leading-52-bit integer h: instant crash at 1.00 when
h is below 2^52 * houseEdge, otherwise rescale to x, map through
1 / (1 - x * 0.99), truncate to two decimals and clamp from below at 1.00. -/
def crashPointClaim (h : ℕ) (houseEdge : ℚ) : ℚ :=
  if (h : ℚ) < 2 ^ 52 * houseEdge then 1
  else
    max 1 (truncate2 (1 / (1 - ((h : ℚ) - 2 ^ 52 * houseEdge) / (2 ^ 52 * (1 - houseEdge)) * (99 / 100))))

theorem one_le_crashPointClaim (h : ℕ) (e : ℚ) : 1 ≤ crashPointClaim h e := by
  unfold crashPointClaim
  split
  · norm_num
  · exact le_max_left _ _

theorem getCrashPointFromHash_eq_claim (hash : String) (e : ℚ) :
    CrashMath.getCrashPointFromHash hash e =
      crashPointClaim (parseHexList (hash.data.take 13)) e := by
  unfold CrashMath.getCrashPointFromHash crashPointClaim truncate2
  rfl

/-- C1: for every 256-bit hex digest and houseEdge in (0,1),
getCrashPointFromHash reads the leading 52 bits as an integer h in
[0, 2^52), returns 1.00 exactly when h < 2^52 * houseEdge, otherwise
rescales, maps through 1 / (1 - x * 0.99), truncates to 2 decimals and
clamps from below at 1.00; the result is always at least 1.00. -/
theorem c1_crash_point_from_hash (hash : String) (houseEdge : ℚ)
    (h0 : 0 < houseEdge) (h1 : houseEdge < 1) :
    parseHexList (hash.data.take 13) < 2 ^ 52 ∧
    CrashMath.getCrashPointFromHash hash houseEdge =
      crashPointClaim (parseHexList (hash.data.take 13)) houseEdge ∧
    1 ≤ CrashMath.getCrashPointFromHash hash houseEdge := by
  refine ⟨?_, getCrashPointFromHash_eq_claim hash houseEdge, ?_⟩
  · have h := parseHexList_lt (hash.data.take 13) 13 (by
      have := List.length_take 13 hash.data
      omega)
    calc parseHexList (hash.data.take 13) < 16 ^ 13 := h
      _ = 2 ^ 52 := by norm_num
  · rw [getCrashPointFromHash_eq_claim hash houseEdge]
    exact one_le_crashPointClaim _ _

/-- Witness for C1 at the all-zero digest and houseEdge 0.05. -/
theorem c1_crash_point_from_hash_witness :
    (0 : ℚ) < 1 / 20 ∧ (1 : ℚ) / 20 < 1 ∧
    1 ≤ CrashMath.getCrashPointFromHash
      "0000000000000000000000000000000000000000000000000000000000000000" (1 / 20) :=
  ⟨by norm_num, by norm_num,
    (c1_crash_point_from_hash _ _ (by norm_num) (by norm_num)).2.2⟩

/-! ## src/lib/db/services/balance.ts (BalanceService)

A custodial wallet row; each service call runs as one database
transaction against it, modelled as a pure state transition.  A call
that the transaction rejects returns none and applies no mutation. -/

namespace BalanceService

structure Wallet where
  balance : ℚ
  pendingBalance : ℚ
  lockedBalance : ℚ
  lowestBalance : ℚ
  highestBalance : ℚ
deriving DecidableEq

/-- The withdrawable (available) balance, as getBalances and the
insufficiency checks compute it: balance - pendingBalance - lockedBalance. -/
def withdrawableBalance (w : Wallet) : ℚ :=
  w.balance - w.pendingBalance - w.lockedBalance

/-- BalanceService.placeBet: rejects with the insufficient-balance error
when amount exceeds the available balance (returning none, no mutation);
otherwise the single transaction increments pendingBalance by amount. -/
def placeBet (w : Wallet) (amount : ℚ) : Option Wallet :=
  let availableBalance := w.balance - w.pendingBalance - w.lockedBalance
  if availableBalance < amount then none
  else some { w with pendingBalance := w.pendingBalance + amount }

/-- BalanceService.unlockFromGame: pendingBalance becomes
max 0 (pendingBalance - amount). -/
def unlockFromGame (w : Wallet) (amount : ℚ) : Wallet :=
  { w with pendingBalance := max 0 (w.pendingBalance - amount) }

/-- BalanceService.deductLoss: balance becomes balance - amount and
pendingBalance becomes max 0 (pendingBalance - amount), with no
insufficiency check of any kind. -/
def deductLoss (w : Wallet) (amount : ℚ) : Wallet :=
  let newBalance := w.balance - amount
  { w with balance := newBalance,
           pendingBalance := max 0 (w.pendingBalance - amount),
           lowestBalance := min w.lowestBalance newBalance }

/-- BalanceService.creditWinnings: balance gains winnings - wagerAmount
and pendingBalance becomes max 0 (pendingBalance - wagerAmount). -/
def creditWinnings (w : Wallet) (wagerAmount winnings : ℚ) : Wallet :=
  let profit := winnings - wagerAmount
  let newBalance := w.balance + profit
  { w with balance := newBalance,
           pendingBalance := max 0 (w.pendingBalance - wagerAmount),
           highestBalance := max w.highestBalance newBalance }

/-- One ledger call on a single account. -/
inductive LedgerOp where
  | bet (amount : ℚ)
  | unlock (amount : ℚ)
  | loss (amount : ℚ)
  | win (wagerAmount winnings : ℚ)

/-- Apply one call; a rejected placeBet leaves the wallet untouched. -/
def applyOp (w : Wallet) : LedgerOp → Wallet
  | .bet a => (placeBet w a).getD w
  | .unlock a => unlockFromGame w a
  | .loss a => deductLoss w a
  | .win wg wn => creditWinnings w wg wn

def applyOps (w : Wallet) (ops : List LedgerOp) : Wallet :=
  ops.foldl applyOp w

/-- Guard under which one call preserves the ledger invariant: amounts are
nonnegative, and a loss or win settles at most the currently pending
(game-locked) amount. -/
def opOk (w : Wallet) : LedgerOp → Prop
  | .bet a => 0 ≤ a
  | .unlock a => 0 ≤ a
  | .loss a => 0 ≤ a ∧ a ≤ w.pendingBalance
  | .win wg wn => 0 ≤ wg ∧ wg ≤ w.pendingBalance ∧ 0 ≤ wn

def opsOk (w : Wallet) : List LedgerOp → Prop
  | [] => True
  | op :: rest => opOk w op ∧ opsOk (applyOp w op) rest

theorem applyOp_preserves (w : Wallet) (op : LedgerOp)
    (hp : 0 ≤ w.pendingBalance) (hw : 0 ≤ withdrawableBalance w)
    (hok : opOk w op) :
    0 ≤ (applyOp w op).pendingBalance ∧ 0 ≤ withdrawableBalance (applyOp w op) := by
  have hw' : 0 ≤ w.balance - w.pendingBalance - w.lockedBalance := hw
  rcases op with a | a | a | ⟨wg, wn⟩
  · simp only [opOk] at hok
    simp only [applyOp, placeBet]
    split
    · simp only [Option.getD_none]
      exact ⟨hp, hw⟩
    · rename_i hle
      push_neg at hle
      simp only [Option.getD_some, withdrawableBalance]
      constructor
      · linarith
      · linarith
  · simp only [opOk] at hok
    have hmax : max 0 (w.pendingBalance - a) ≤ w.pendingBalance :=
      max_le hp (by linarith)
    simp only [applyOp, unlockFromGame, withdrawableBalance]
    constructor
    · exact le_max_left _ _
    · linarith
  · simp only [opOk] at hok
    obtain ⟨ha, hap⟩ := hok
    have hmax : max 0 (w.pendingBalance - a) = w.pendingBalance - a :=
      max_eq_right (by linarith)
    simp only [applyOp, deductLoss, withdrawableBalance, hmax]
    constructor
    · linarith
    · linarith
  · simp only [opOk] at hok
    obtain ⟨hwg, hwgp, hwn⟩ := hok
    have hmax : max 0 (w.pendingBalance - wg) = w.pendingBalance - wg :=
      max_eq_right (by linarith)
    simp only [applyOp, creditWinnings, withdrawableBalance, hmax]
    constructor
    · linarith
    · linarith

/-- C2 (amended): along any sequence of placeBet / unlockFromGame /
creditWinnings / deductLoss calls whose amounts are nonnegative and whose
loss and win settlements never exceed the currently pending amount, the
withdrawable balance stays nonnegative after every individual operation. -/
theorem c2_ledger_nonneg_guarded (w : Wallet) (ops : List LedgerOp)
    (hp : 0 ≤ w.pendingBalance) (hw : 0 ≤ withdrawableBalance w)
    (hok : opsOk w ops) :
    ∀ i : ℕ, 0 ≤ withdrawableBalance (applyOps w (ops.take i)) := by
  induction ops generalizing w with
  | nil =>
    intro i
    simpa [applyOps] using hw
  | cons op rest ih =>
    intro i
    rcases i with _ | j
    · simpa [applyOps] using hw
    · obtain ⟨hok1, hokr⟩ := hok
      have hstep := applyOp_preserves w op hp hw hok1
      have := ih (applyOp w op) hstep.1 hstep.2 hokr j
      simpa [applyOps, List.take, List.foldl_cons] using this

/-- C2 counterexample: from a wallet with balance 1 and nothing pending
(withdrawable 1), the single call deductLoss 2 is applied rather than
rejected and leaves the withdrawable balance at -1. -/
theorem c2_counterexample :
    0 ≤ withdrawableBalance ⟨1, 0, 0, 1, 1⟩ ∧
    withdrawableBalance (applyOps ⟨1, 0, 0, 1, 1⟩ [LedgerOp.loss 2]) < 0 := by
  constructor
  · norm_num [withdrawableBalance]
  · norm_num [withdrawableBalance, applyOps, applyOp, deductLoss]

/-- Witness for the guarded C2 theorem: deposit-free wallet with balance
10, a bet of 4 followed by losing it. -/
theorem c2_ledger_nonneg_guarded_witness :
    0 ≤ withdrawableBalance ⟨10, 0, 0, 0, 10⟩ ∧
    opsOk ⟨10, 0, 0, 0, 10⟩ [LedgerOp.bet 4, LedgerOp.loss 4] ∧
    0 ≤ withdrawableBalance
      (applyOps ⟨10, 0, 0, 0, 10⟩ ([LedgerOp.bet 4, LedgerOp.loss 4].take 2)) := by
  have hok : opsOk ⟨10, 0, 0, 0, 10⟩ [LedgerOp.bet 4, LedgerOp.loss 4] := by
    norm_num [opsOk, opOk, applyOp, placeBet]
  refine ⟨by norm_num [withdrawableBalance], hok, ?_⟩
  exact c2_ledger_nonneg_guarded ⟨10, 0, 0, 0, 10⟩ _ (by norm_num)
    (by norm_num [withdrawableBalance]) hok 2

/-- C5: placeBet fails with the insufficient-funds error exactly when the
requested amount exceeds the withdrawable balance, applying no mutation;
otherwise the single atomic update adds the amount to the in-game pending
lock, leaves balance and lockedBalance untouched, and thereby decreases
the spendable (withdrawable) balance by exactly the amount. -/
theorem c5_place_bet_lock (w : Wallet) (amount : ℚ) :
    (withdrawableBalance w < amount → placeBet w amount = none) ∧
    (amount ≤ withdrawableBalance w →
      placeBet w amount = some { w with pendingBalance := w.pendingBalance + amount } ∧
      withdrawableBalance { w with pendingBalance := w.pendingBalance + amount } =
        withdrawableBalance w - amount) := by
  constructor
  · intro h
    simp only [placeBet]
    rw [if_pos]
    exact h
  · intro h
    constructor
    · simp only [placeBet]
      rw [if_neg]
      simp only [withdrawableBalance] at h
      push_neg
      exact h
    · simp only [withdrawableBalance]
      ring

/-- Witness for C5: wallet with balance 10 accepting a bet of 4. -/
theorem c5_place_bet_lock_witness :
    placeBet ⟨10, 0, 0, 0, 10⟩ 4 =
      some { Wallet.mk 10 0 0 0 10 with pendingBalance := (0 : ℚ) + 4 } ∧
    withdrawableBalance { Wallet.mk 10 0 0 0 10 with pendingBalance := (0 : ℚ) + 4 } =
      withdrawableBalance ⟨10, 0, 0, 0, 10⟩ - 4 :=
  (c5_place_bet_lock ⟨10, 0, 0, 0, 10⟩ 4).2 (by norm_num [withdrawableBalance])

end BalanceService

/-! ## Node crypto primitives used by the fairness module -/

namespace Crypto

def mod32 (n : ℕ) : ℕ := n % 2 ^ 32

/-- Right rotation of a 32-bit word. -/
def rotr32 (x n : ℕ) : ℕ :=
  mod32 (Nat.lor (x >>> n) (x <<< (32 - n)))

/-- Three-way xor, the shape of every SHA-256 mixing function. -/
def xor3 (a b c : ℕ) : ℕ :=
  Nat.xor (Nat.xor a b) c

def bigSigma0 (x : ℕ) : ℕ :=
  xor3 (rotr32 x 2) (rotr32 x 13) (rotr32 x 22)

def bigSigma1 (x : ℕ) : ℕ :=
  xor3 (rotr32 x 6) (rotr32 x 11) (rotr32 x 25)

def smallSigma0 (x : ℕ) : ℕ :=
  xor3 (rotr32 x 7) (rotr32 x 18) (x >>> 3)

def smallSigma1 (x : ℕ) : ℕ :=
  xor3 (rotr32 x 17) (rotr32 x 19) (x >>> 10)

/-- Choose: bits of y where x is set, of z where x is clear; the
complement is against the 32-bit all-ones mask. -/
def chFn (x y z : ℕ) : ℕ :=
  Nat.xor (Nat.land x y) (Nat.land (Nat.xor x (2 ^ 32 - 1)) z)

/-- Majority of the three words, bit by bit. -/
def majFn (x y z : ℕ) : ℕ :=
  xor3 (Nat.land x y) (Nat.land x z) (Nat.land y z)

def sha256K : List ℕ :=
  [1116352408, 1899447441, 3049323471, 3921009573, 961987163, 1508970993,
   2453635748, 2870763221, 3624381080, 310598401, 607225278, 1426881987,
   1925078388, 2162078206, 2614888103, 3248222580, 3835390401, 4022224774,
   264347078, 604807628, 770255983, 1249150122, 1555081692, 1996064986,
   2554220882, 2821834349, 2952996808, 3210313671, 3336571891, 3584528711,
   113926993, 338241895, 666307205, 773529912, 1294757372, 1396182291,
   1695183700, 1986661051, 2177026350, 2456956037, 2730485921, 2820302411,
   3259730800, 3345764771, 3516065817, 3600352804, 4094571909, 275423344,
   430227734, 506948616, 659060556, 883997877, 958139571, 1322822218,
   1537002063, 1747873779, 1955562222, 2024104815, 2227730452, 2361852424,
   2428436474, 2756734187, 3204031479, 3329325298]

/-- The eight 32-bit working registers of the compression function. -/
structure Regs where
  r0 : ℕ
  r1 : ℕ
  r2 : ℕ
  r3 : ℕ
  r4 : ℕ
  r5 : ℕ
  r6 : ℕ
  r7 : ℕ

def sha256Init : Regs :=
  ⟨1779033703, 3144134277, 1013904242, 2773480762, 1359893119, 2600822924, 528734635, 1541459225⟩

/-- The first 16 message-schedule words of a 64-byte block, big-endian. -/
def bytesToWords (block : List ℕ) : Array ℕ :=
  (List.range 16).foldl (fun arr i =>
    arr.push ((block.getD (4 * i) 0) <<< 24 + (block.getD (4 * i + 1) 0) <<< 16 +
      (block.getD (4 * i + 2) 0) <<< 8 + block.getD (4 * i + 3) 0)) #[]

/-- Words 16 to 63 of the message schedule. -/
def extendW (w0 : Array ℕ) : Array ℕ :=
  (List.range 48).foldl (fun w i =>
    let t := i + 16
    w.push (mod32 (smallSigma1 (w.getD (t - 2) 0) + w.getD (t - 7) 0 +
      smallSigma0 (w.getD (t - 15) 0) + w.getD (t - 16) 0))) w0

def roundFn (r : Regs) (kw : ℕ × ℕ) : Regs :=
  let t1 := mod32 (r.r7 + bigSigma1 r.r4 + chFn r.r4 r.r5 r.r6 + kw.1 + kw.2)
  let t2 := mod32 (bigSigma0 r.r0 + majFn r.r0 r.r1 r.r2)
  ⟨mod32 (t1 + t2), r.r0, r.r1, r.r2, mod32 (r.r3 + t1), r.r4, r.r5, r.r6⟩

def processBlock (H : Regs) (block : List ℕ) : Regs :=
  let w := extendW (bytesToWords block)
  let r := (sha256K.zip w.toList).foldl roundFn H
  ⟨mod32 (H.r0 + r.r0), mod32 (H.r1 + r.r1), mod32 (H.r2 + r.r2), mod32 (H.r3 + r.r3),
   mod32 (H.r4 + r.r4), mod32 (H.r5 + r.r5), mod32 (H.r6 + r.r6), mod32 (H.r7 + r.r7)⟩

/-- FIPS 180-4 padding: 0x80, zeros to 56 mod 64, 64-bit big-endian bit length. -/
def sha256Pad (msg : List ℕ) : List ℕ :=
  let bitLen := msg.length * 8
  let padLen := (55 + 64 - msg.length % 64) % 64
  msg ++ [0x80] ++ List.replicate padLen 0 ++
    (List.range 8).reverse.map (fun i => (bitLen >>> (8 * i)) % 256)

def chunk64 : ℕ → List ℕ → List (List ℕ)
  | 0, _ => []
  | _, [] => []
  | fuel + 1, l => l.take 64 :: chunk64 fuel (l.drop 64)

/-- Modelled from the spec: the SHA-256 digest (as bytes) provided by the
Node crypto library, which is not part of the repository; implemented per
FIPS 180-4. -/
def sha256Bytes (msg : List ℕ) : List ℕ :=
  let padded := sha256Pad msg
  let blocks := chunk64 padded.length padded
  let H := blocks.foldl processBlock sha256Init
  [H.r0, H.r1, H.r2, H.r3, H.r4, H.r5, H.r6, H.r7].bind
    (fun wv => (List.range 4).reverse.map (fun i => (wv >>> (8 * i)) % 256))

/-- Modelled from the spec: HMAC-SHA256 from the Node crypto library
(not part of the repository); implemented per RFC 2104 with the 64-byte
SHA-256 block size. -/
def hmacSha256 (key msg : List ℕ) : List ℕ :=
  let key1 := if 64 < key.length then sha256Bytes key else key
  let keyPad := key1 ++ List.replicate (64 - key1.length) 0
  let ipad := keyPad.map (fun b => b ^^^ 0x36)
  let opad := keyPad.map (fun b => b ^^^ 0x5c)
  sha256Bytes (opad ++ sha256Bytes (ipad ++ msg))

def hexDigitChars : List Char :=
  "0123456789abcdef".data

def byteToHexChars (b : ℕ) : List Char :=
  [hexDigitChars.getD (b / 16 % 16) '0', hexDigitChars.getD (b % 16) '0']

def bytesToHex (l : List ℕ) : String :=
  ⟨l.bind byteToHexChars⟩

/-- Bytes of a string; the seeds and client strings handled by the game are
ASCII, where UTF-8 bytes coincide with the code points. -/
def strBytes (s : String) : List ℕ :=
  s.data.map Char.toNat

end Crypto

/-! ## Provably-fair module (src/unnamed/part_001 area: provably-fair.ts) -/

namespace ProvablyFair

/-- hashSeed: SHA-256 of the seed, hex encoded. -/
def hashSeed (seed : String) : String :=
  Crypto.bytesToHex (Crypto.sha256Bytes (Crypto.strBytes seed))

/-- combineSeeds: HMAC-SHA256 with the server seed as key over
clientSeed, a colon, and the decimal nonce. -/
def combineSeeds (serverSeed clientSeed : String) (nonce : ℕ) : String :=
  Crypto.bytesToHex (Crypto.hmacSha256 (Crypto.strBytes serverSeed)
    (Crypto.strBytes (clientSeed ++ ":" ++ toString nonce)))

/-- Default houseEdge parameter of calculateCrashPoint in the source. -/
def calculateCrashPointDefaultHouseEdge : ℚ := 3 / 100

def calculateCrashPoint (serverSeed clientSeed : String) (nonce : ℕ) (houseEdge : ℚ) : ℚ :=
  CrashMath.getCrashPointFromHash (combineSeeds serverSeed clientSeed nonce) houseEdge

/-- The object shape verifyGame returns. -/
structure VerifyOutcome where
  valid : Bool
  error : Option String
  calculatedCrashPoint : Option ℚ
deriving DecidableEq

/-- Default houseEdge parameter of verifyGame in the source. -/
def verifyGameDefaultHouseEdge : ℚ := 5 / 100

/-- verifyGame: re-derive the server seed hash and the crash point and
compare the latter with the claimed one under a 0.01 tolerance. -/
def verifyGame (serverSeed serverSeedHash clientSeed : String) (nonce : ℕ)
    (claimedCrashPoint houseEdge : ℚ) : VerifyOutcome :=
  if hashSeed serverSeed ≠ serverSeedHash then
    { valid := false,
      error := some "Server seed hash does not match. The server may have changed the seed.",
      calculatedCrashPoint := none }
  else
    let calculatedCrashPoint := calculateCrashPoint serverSeed clientSeed nonce houseEdge
    if 1 / 100 < |calculatedCrashPoint - claimedCrashPoint| then
      { valid := false,
        error := some ("Crash point mismatch. Expected " ++ toString claimedCrashPoint ++
          ", calculated " ++ toString calculatedCrashPoint),
        calculatedCrashPoint := some calculatedCrashPoint }
    else
      { valid := true, error := none, calculatedCrashPoint := some calculatedCrashPoint }

/-- C3: verifyGame reports invalid exactly on a seed-hash mismatch or a
crash-point difference beyond the 0.01 tolerance; hence for every seed
pair and houseEdge in (0,1), verifying the crash point computed by
calculateCrashPoint (same houseEdge) against the true hash is valid. -/
theorem c3_verify_game (serverSeed serverSeedHash clientSeed : String) (nonce : ℕ)
    (claimed houseEdge : ℚ) (h0 : 0 < houseEdge) (h1 : houseEdge < 1) :
    ((verifyGame serverSeed serverSeedHash clientSeed nonce claimed houseEdge).valid = false ↔
      (hashSeed serverSeed ≠ serverSeedHash ∨
        1 / 100 < |calculateCrashPoint serverSeed clientSeed nonce houseEdge - claimed|)) ∧
    verifyGame serverSeed (hashSeed serverSeed) clientSeed nonce
      (calculateCrashPoint serverSeed clientSeed nonce houseEdge) houseEdge =
      { valid := true, error := none,
        calculatedCrashPoint := some (calculateCrashPoint serverSeed clientSeed nonce houseEdge) } := by
  constructor
  · unfold verifyGame
    split
    · rename_i hne
      simp only [true_iff]
      exact Or.inl hne
    · rename_i heq
      push_neg at heq
      dsimp only
      split
      · rename_i htol
        simp only [true_iff]
        exact Or.inr htol
      · rename_i htol
        simp only [Bool.true_eq_false, false_iff, not_or, not_lt]
        push_neg at htol
        exact ⟨fun hne => hne heq, htol⟩
  · unfold verifyGame
    rw [if_neg (by simp)]
    rw [if_neg (by simp)]

/-- Witness for C3 at the round-trip example of the spec: serverSeed of
64 a characters, clientSeed of 32 b characters, nonce 0, houseEdge 0.03. -/
theorem c3_verify_game_witness :
    verifyGame
      "aaaaaaaaaaaaaaaaaaaaaaaaaaaaaaaaaaaaaaaaaaaaaaaaaaaaaaaaaaaaaaaa"
      (hashSeed "aaaaaaaaaaaaaaaaaaaaaaaaaaaaaaaaaaaaaaaaaaaaaaaaaaaaaaaaaaaaaaaa")
      "bbbbbbbbbbbbbbbbbbbbbbbbbbbbbbbb" 0
      (calculateCrashPoint
        "aaaaaaaaaaaaaaaaaaaaaaaaaaaaaaaaaaaaaaaaaaaaaaaaaaaaaaaaaaaaaaaa"
        "bbbbbbbbbbbbbbbbbbbbbbbbbbbbbbbb" 0 (3 / 100)) (3 / 100) =
      { valid := true, error := none,
        calculatedCrashPoint := some (calculateCrashPoint
          "aaaaaaaaaaaaaaaaaaaaaaaaaaaaaaaaaaaaaaaaaaaaaaaaaaaaaaaaaaaaaaaa"
          "bbbbbbbbbbbbbbbbbbbbbbbbbbbbbbbb" 0 (3 / 100)) } :=
  (c3_verify_game
    "aaaaaaaaaaaaaaaaaaaaaaaaaaaaaaaaaaaaaaaaaaaaaaaaaaaaaaaaaaaaaaaa"
    (hashSeed "aaaaaaaaaaaaaaaaaaaaaaaaaaaaaaaaaaaaaaaaaaaaaaaaaaaaaaaaaaaaaaaa")
    "bbbbbbbbbbbbbbbbbbbbbbbbbbbbbbbb" 0
    (calculateCrashPoint
      "aaaaaaaaaaaaaaaaaaaaaaaaaaaaaaaaaaaaaaaaaaaaaaaaaaaaaaaaaaaaaaaa"
      "bbbbbbbbbbbbbbbbbbbbbbbbbbbbbbbb" 0 (3 / 100))
    (3 / 100) (by norm_num) (by norm_num)).2

end ProvablyFair

/-! ## src/app/api/games/crash/verify/route.ts (POST handler) -/

namespace VerifyRoute

/-- The JSON body of a verification request; absent fields are none, and
a possible houseEdge field is carried to show the handler ignores it. -/
structure VerifyRequestBody where
  serverSeed : Option String
  serverSeedHash : Option String
  clientSeed : Option String
  nonce : Option ℕ
  crashPoint : Option ℚ
  houseEdge : Option ℚ

/-- JavaScript falsiness of a destructured string field: absent or empty. -/
def strMissing : Option String → Bool
  | none => true
  | some s => s.isEmpty

/-- The required-fields guard of the handler: !serverSeed, !serverSeedHash,
!clientSeed, nonce === undefined, !crashPoint. -/
def missingRequired (body : VerifyRequestBody) : Bool :=
  strMissing body.serverSeed || strMissing body.serverSeedHash ||
    strMissing body.clientSeed || body.nonce.isNone || body.crashPoint.getD 0 == 0

/-- The POST handler: a 400 error on missing fields, otherwise the result
of verifyGame called without a houseEdge argument, so with its default. -/
def post (body : VerifyRequestBody) : Except String ProvablyFair.VerifyOutcome :=
  if missingRequired body then
    .error "Missing required fields"
  else
    .ok (ProvablyFair.verifyGame (body.serverSeed.getD "") (body.serverSeedHash.getD "")
      (body.clientSeed.getD "") (body.nonce.getD 0) (body.crashPoint.getD 0)
      ProvablyFair.verifyGameDefaultHouseEdge)

/-- C10: the verify endpoint never reads a houseEdge field from the body,
verifyGame defaults houseEdge to 0.05 (while calculateCrashPoint defaults
to 0.03), and every accepted request is answered by verifyGame at
houseEdge 0.05. -/
theorem c10_verify_route_house_edge (body : VerifyRequestBody) (he : Option ℚ) :
    post { body with houseEdge := he } = post body ∧
    ProvablyFair.verifyGameDefaultHouseEdge = 5 / 100 ∧
    ProvablyFair.calculateCrashPointDefaultHouseEdge = 3 / 100 ∧
    (missingRequired body = false →
      post body = .ok (ProvablyFair.verifyGame (body.serverSeed.getD "")
        (body.serverSeedHash.getD "") (body.clientSeed.getD "")
        (body.nonce.getD 0) (body.crashPoint.getD 0) (5 / 100))) := by
  refine ⟨rfl, rfl, rfl, ?_⟩
  intro hmiss
  unfold post
  rw [if_neg (by simp [hmiss])]
  rfl

/-- Witness for C10 at a concrete complete body. -/
theorem c10_verify_route_house_edge_witness :
    post ⟨some "a", some "b", some "c", some 0, some 1, none⟩ =
      .ok (ProvablyFair.verifyGame "a" "b" "c" 0 1 (5 / 100)) :=
  (c10_verify_route_house_edge ⟨some "a", some "b", some "c", some 0, some 1, none⟩ none).2.2.2
    (by decide)

end VerifyRoute

/-! ## src/unnamed/part_004: crash-service.ts (CrashGameService)

One crash round with its broadcast log.  JavaScript timestamps are
integers; getMultiplierAtTime computes exp of a real exponent in floating
point, which has no exact rational embedding, so the multiplier curve is a
parameter getMult of each operation that evaluates it.  The claims proved
below hold for every curve, in particular the one of the source. -/

namespace CrashGameService

structure GameSession where
  serverSeed : String
  serverSeedHash : String
  clientSeed : String
  nonce : ℕ
deriving DecidableEq

structure PlayerBet where
  oderId : String
  oderwager : ℚ
  odercashedOutAt : Option ℚ
  oderpayout : Option ℚ
deriving DecidableEq

inductive GameStatus where
  | waiting
  | running
  | crashed
deriving DecidableEq

structure ActiveGame where
  session : GameSession
  crashPoint : ℚ
  startTime : Option ℤ
  players : List (String × PlayerBet)
  status : GameStatus
deriving DecidableEq

/-- The payloads broadcastGameUpdate sends during a crash round. -/
inductive Broadcast where
  | crashStart (startTime : ℤ) (crashPoint : Option ℚ)
  | crashTick (elapsed : ℤ) (multiplier : ℚ) (serverTime : ℤ)
  | crashCashout (oderId : String) (multiplier payout : ℚ)
  | crashEnd (crashPoint : ℚ) (serverSeed serverSeedHash clientSeed : String) (nonce : ℕ)
deriving DecidableEq

/-- The serverSeed field a broadcast payload carries, if any. -/
def Broadcast.serverSeedField : Broadcast → Option String
  | .crashEnd _ s _ _ _ => some s
  | _ => none

/-- The non-null crashPoint a broadcast payload carries, if any; the
crash_start payload has the field but the source sets it to null. -/
def Broadcast.crashPointField : Broadcast → Option ℚ
  | .crashStart _ cp => cp
  | .crashEnd cp _ _ _ _ => some cp
  | _ => none

structure RoundState where
  game : ActiveGame
  log : List Broadcast
deriving DecidableEq

/-- A freshly created round: crashPoint derived and stored, nothing
broadcast yet, betting open. -/
def initialRound (session : GameSession) (crashPoint : ℚ) : RoundState :=
  ⟨⟨session, crashPoint, none, [], .waiting⟩, []⟩

/-- In-memory Map.get on the players association list. -/
def getBet : List (String × PlayerBet) → String → Option PlayerBet
  | [], _ => none
  | (k, v) :: rest, oderId => if k = oderId then some v else getBet rest oderId

/-- placeBet: only while waiting, at most one bet per player; records a
position with no cashout, broadcasting nothing. -/
def placeBetStep (oderId : String) (oderwager : ℚ) (s : RoundState) : RoundState :=
  if s.game.status ≠ .waiting then s
  else if (getBet s.game.players oderId).isSome then s
  else { s with game := { s.game with
    players := s.game.players ++ [(oderId, ⟨oderId, oderwager, none, none⟩)] } }

/-- startGame: waiting to running, records startTime, broadcasts
crash_start with crashPoint null (not revealed). -/
def startGame (now : ℤ) (s : RoundState) : RoundState :=
  if s.game.status ≠ .waiting then s
  else
    { game := { s.game with status := .running, startTime := some now },
      log := s.log ++ [.crashStart now none] }

/-- One sync broadcast: only while running with a startTime, carrying the
elapsed time, the recomputed multiplier and the server time. -/
def tickStep (getMult : ℤ → ℚ) (now : ℤ) (s : RoundState) : RoundState :=
  match s.game.status, s.game.startTime with
  | .running, some st =>
      let elapsed := now - st
      { s with log := s.log ++ [.crashTick elapsed (getMult elapsed) now] }
  | _, _ => s

inductive CashoutResult where
  | ok (multiplier payout : ℚ)
  | err (msg : String)
deriving DecidableEq

/-- In-memory Map.set on the players association list. -/
def updateBet (players : List (String × PlayerBet)) (oderId : String) (b : PlayerBet) :
    List (String × PlayerBet) :=
  players.map (fun p => if p.1 = oderId then (p.1, b) else p)

/-- cashout: guards in source order (running, known player, not yet cashed
out, server-recomputed multiplier still below the crash point), then
records the cashout, pays calculatePayout and broadcasts it. -/
def cashout (getMult : ℤ → ℚ) (now : ℤ) (s : RoundState) (oderId : String) :
    CashoutResult × RoundState :=
  if s.game.status ≠ .running then (.err "Game not running", s)
  else
    match getBet s.game.players oderId with
    | none => (.err "Not in this game", s)
    | some player =>
      if player.odercashedOutAt ≠ none then (.err "Already cashed out", s)
      else
        let elapsed := now - s.game.startTime.getD 0
        let multiplier := getMult elapsed
        if s.game.crashPoint ≤ multiplier then (.err "Game already crashed", s)
        else
          let payout := CrashMath.calculatePayout player.oderwager multiplier
          let player2 := { player with odercashedOutAt := some multiplier,
                                       oderpayout := some payout }
          (.ok multiplier payout,
            { game := { s.game with players := updateBet s.game.players oderId player2 },
              log := s.log ++ [.crashCashout oderId multiplier payout] })

/-- crashGame: running to crashed; the crash_end broadcast reveals the
seed pair and the crash point. -/
def crashGame (s : RoundState) : RoundState :=
  if s.game.status ≠ .running then s
  else
    { game := { s.game with status := .crashed },
      log := s.log ++ [.crashEnd s.game.crashPoint s.game.session.serverSeed
        s.game.session.serverSeedHash s.game.session.clientSeed s.game.session.nonce] }

/-- The events of one round, fired at arbitrary times by arbitrary
players, with an arbitrary multiplier curve. -/
inductive Step : RoundState → RoundState → Prop where
  | bet (oderId : String) (w : ℚ) (s : RoundState) : Step s (placeBetStep oderId w s)
  | start (now : ℤ) (s : RoundState) : Step s (startGame now s)
  | tick (getMult : ℤ → ℚ) (now : ℤ) (s : RoundState) : Step s (tickStep getMult now s)
  | cash (getMult : ℤ → ℚ) (now : ℤ) (oderId : String) (s : RoundState) :
      Step s (cashout getMult now s oderId).2
  | crash (s : RoundState) : Step s (crashGame s)

inductive Reachable (init : RoundState) : RoundState → Prop where
  | refl : Reachable init init
  | step {s s2 : RoundState} : Reachable init s → Step s s2 → Reachable init s2

theorem getBet_updateBet (players : List (String × PlayerBet)) (oderId : String)
    (b : PlayerBet) :
    getBet (updateBet players oderId b) oderId = (getBet players oderId).map (fun _ => b) := by
  induction players with
  | nil => rfl
  | cons p rest ih =>
    obtain ⟨k, v⟩ := p
    simp only [updateBet, List.map_cons]
    by_cases hk : k = oderId
    · rw [if_pos hk]
      simp only [getBet, if_pos hk]
      rfl
    · rw [if_neg hk]
      simp only [getBet, if_neg hk]
      exact ih

/-- C4: a cashout succeeds only while the round is running, only for a
registered player who has not cashed out, and only while the
server-recomputed multiplier at the elapsed time is strictly below the
crash point; the payout is floor(wager * multiplier * 10000) / 10000;
and after a success, any further cashout by the same player fails with
the already-cashed-out error and changes nothing. -/
theorem c4_cashout_exactly_once (getMult : ℤ → ℚ) (now : ℤ) (s : RoundState)
    (oderId : String) (m payout : ℚ) (s2 : RoundState)
    (h : cashout getMult now s oderId = (.ok m payout, s2)) :
    s.game.status = .running ∧
    m = getMult (now - s.game.startTime.getD 0) ∧
    m < s.game.crashPoint ∧
    (∃ player, getBet s.game.players oderId = some player ∧
      player.odercashedOutAt = none ∧
      payout = CrashMath.calculatePayout player.oderwager m) ∧
    (∀ getMult2 : ℤ → ℚ, ∀ now2 : ℤ,
      cashout getMult2 now2 s2 oderId = (.err "Already cashed out", s2)) := by
  unfold cashout at h
  split at h
  · exact absurd (congrArg Prod.fst h) (by simp)
  · rename_i hrun
    push_neg at hrun
    split at h
    · exact absurd (congrArg Prod.fst h) (by simp)
    · rename_i player hlook
      split at h
      · exact absurd (congrArg Prod.fst h) (by simp)
      · rename_i hnotout
        push_neg at hnotout
        dsimp only at h
        split at h
        · exact absurd (congrArg Prod.fst h) (by simp)
        · rename_i hbelow
          push_neg at hbelow
          simp only [Prod.mk.injEq, CashoutResult.ok.injEq] at h
          obtain ⟨⟨hm, hpay⟩, hs2⟩ := h
          subst hm hpay
          refine ⟨hrun, rfl, hbelow, ⟨player, hlook, hnotout, rfl⟩, ?_⟩
          intro getMult2 now2
          have hstat2 : s2.game.status = GameStatus.running := by
            rw [← hs2]
            exact hrun
          have hlook2 : getBet s2.game.players oderId =
              some { player with
                odercashedOutAt := some (getMult (now - s.game.startTime.getD 0)),
                oderpayout := some (CrashMath.calculatePayout player.oderwager
                  (getMult (now - s.game.startTime.getD 0))) } := by
            rw [← hs2]
            show getBet (updateBet s.game.players oderId _) oderId = _
            rw [getBet_updateBet, hlook]
            rfl
          unfold cashout
          rw [if_neg (by simp [hstat2])]
          rw [hlook2]
          simp

/-- Witness for C4: a running round, one player with wager 10, constant
multiplier curve of value 3/2 below the crash point 2. -/
theorem c4_cashout_exactly_once_witness :
    cashout (fun _ => 3 / 2) 5
      ⟨⟨⟨"s", "h", "c", 0⟩, 2, some 0, [("p", ⟨"p", 10, none, none⟩)], .running⟩, []⟩ "p" =
      (.ok (3 / 2) 15,
        ⟨⟨⟨"s", "h", "c", 0⟩, 2, some 0, [("p", ⟨"p", 10, some (3 / 2), some 15⟩)], .running⟩,
          [.crashCashout "p" (3 / 2) 15]⟩) ∧
    cashout (fun _ => 19 / 10) 9
      ⟨⟨⟨"s", "h", "c", 0⟩, 2, some 0, [("p", ⟨"p", 10, some (3 / 2), some 15⟩)], .running⟩,
        [.crashCashout "p" (3 / 2) 15]⟩ "p" =
      (.err "Already cashed out",
        ⟨⟨⟨"s", "h", "c", 0⟩, 2, some 0, [("p", ⟨"p", 10, some (3 / 2), some 15⟩)], .running⟩,
          [.crashCashout "p" (3 / 2) 15]⟩) := by
  have hfirst : cashout (fun _ => 3 / 2) 5
      ⟨⟨⟨"s", "h", "c", 0⟩, 2, some 0, [("p", ⟨"p", 10, none, none⟩)], .running⟩, []⟩ "p" =
      (.ok (3 / 2) 15,
        ⟨⟨⟨"s", "h", "c", 0⟩, 2, some 0, [("p", ⟨"p", 10, some (3 / 2), some 15⟩)], .running⟩,
          [.crashCashout "p" (3 / 2) 15]⟩) := by
    norm_num [cashout, getBet, updateBet, CrashMath.calculatePayout]
  refine ⟨hfirst, ?_⟩
  have h2 := (c4_cashout_exactly_once (fun _ => 3 / 2) 5
    ⟨⟨⟨"s", "h", "c", 0⟩, 2, some 0, [("p", ⟨"p", 10, none, none⟩)], .running⟩, []⟩ "p"
    (3 / 2) 15 _ hfirst).2.2.2.2 (fun _ => 19 / 10) 9
  exact h2

/-- The crash_end payload of a round with the given session and crash
point. -/
def revealedBroadcast (session : GameSession) (crashPoint : ℚ) : Broadcast :=
  .crashEnd crashPoint session.serverSeed session.serverSeedHash session.clientSeed session.nonce

/-- Round invariant: session and crash point are fixed at creation, and
any logged broadcast exposing a serverSeed or a non-null crashPoint is the
crash_end payload, present only once the round is crashed. -/
def SecrecyInv (session : GameSession) (crashPoint : ℚ) (s : RoundState) : Prop :=
  s.game.session = session ∧ s.game.crashPoint = crashPoint ∧
  ∀ b ∈ s.log, (b.serverSeedField ≠ none ∨ b.crashPointField ≠ none) →
    (b = revealedBroadcast session crashPoint ∧ s.game.status = .crashed)

theorem secrecyInv_init (session : GameSession) (crashPoint : ℚ) :
    SecrecyInv session crashPoint (initialRound session crashPoint) := by
  refine ⟨rfl, rfl, ?_⟩
  intro b hb
  simp [initialRound] at hb

theorem secrecyInv_step {session : GameSession} {crashPoint : ℚ} {s s2 : RoundState}
    (hs : SecrecyInv session crashPoint s) (hstep : Step s s2) :
    SecrecyInv session crashPoint s2 := by
  obtain ⟨hsess, hcp, hlog⟩ := hs
  cases hstep with
  | bet oderId w s =>
    unfold placeBetStep
    split
    · exact ⟨hsess, hcp, hlog⟩
    split
    · exact ⟨hsess, hcp, hlog⟩
    · exact ⟨hsess, hcp, hlog⟩
  | start now s =>
    unfold startGame
    split
    · exact ⟨hsess, hcp, hlog⟩
    · rename_i hw
      push_neg at hw
      refine ⟨hsess, hcp, ?_⟩
      intro b hb hrev
      simp only [List.mem_append, List.mem_singleton] at hb
      rcases hb with hb | hb
      · have := hlog b hb hrev
        rw [hw] at this
        exact absurd this.2 (by simp)
      · subst hb
        simp [Broadcast.serverSeedField, Broadcast.crashPointField] at hrev
  | tick getMult now s =>
    unfold tickStep
    split
    · rename_i st heq1 heq2
      refine ⟨hsess, hcp, ?_⟩
      intro b hb hrev
      simp only [List.mem_append, List.mem_singleton] at hb
      rcases hb with hb | hb
      · have := hlog b hb hrev
        rw [heq1] at this
        exact absurd this.2 (by simp)
      · subst hb
        simp [Broadcast.serverSeedField, Broadcast.crashPointField] at hrev
    · exact ⟨hsess, hcp, hlog⟩
  | cash getMult now oderId s =>
    unfold cashout
    split
    · exact ⟨hsess, hcp, hlog⟩
    · rename_i hrun
      push_neg at hrun
      split
      · exact ⟨hsess, hcp, hlog⟩
      · split
        · exact ⟨hsess, hcp, hlog⟩
        · dsimp only
          split
          · exact ⟨hsess, hcp, hlog⟩
          · refine ⟨hsess, hcp, ?_⟩
            intro b hb hrev
            simp only [List.mem_append, List.mem_singleton] at hb
            rcases hb with hb | hb
            · have := hlog b hb hrev
              rw [hrun] at this
              exact absurd this.2 (by simp)
            · subst hb
              simp [Broadcast.serverSeedField, Broadcast.crashPointField] at hrev
  | crash s =>
    unfold crashGame
    split
    · exact ⟨hsess, hcp, hlog⟩
    · rename_i hrun
      push_neg at hrun
      refine ⟨hsess, hcp, ?_⟩
      intro b hb hrev
      simp only [List.mem_append, List.mem_singleton] at hb
      rcases hb with hb | hb
      · have := hlog b hb hrev
        rw [hrun] at this
        exact absurd this.2 (by simp)
      · subst hb
        refine ⟨?_, rfl⟩
        rw [revealedBroadcast, hsess, hcp]

theorem secrecyInv_reachable {session : GameSession} {crashPoint : ℚ} {s : RoundState}
    (h : Reachable (initialRound session crashPoint) s) :
    SecrecyInv session crashPoint s := by
  induction h with
  | refl => exact secrecyInv_init session crashPoint
  | step _ hstep ih => exact secrecyInv_step ih hstep

/-- C9: along any round run, no broadcast emitted before the round is
crashed carries a serverSeed or a non-null crashPoint; any broadcast
carrying either is the crash_end payload, which exists only once the
round reached the crashed state and carries the round's true seed and
crash point. -/
theorem c9_no_reveal_before_crash (session : GameSession) (crashPoint : ℚ)
    (s : RoundState) (hreach : Reachable (initialRound session crashPoint) s) :
    (s.game.status ≠ .crashed →
      ∀ b ∈ s.log, b.serverSeedField = none ∧ b.crashPointField = none) ∧
    (∀ b ∈ s.log, (b.serverSeedField ≠ none ∨ b.crashPointField ≠ none) →
      (b = revealedBroadcast session crashPoint ∧ s.game.status = .crashed)) := by
  have hinv := secrecyInv_reachable hreach
  obtain ⟨_, _, hlog⟩ := hinv
  refine ⟨?_, hlog⟩
  intro hnc b hb
  constructor
  · by_contra hne
    exact hnc (hlog b hb (Or.inl hne)).2
  · by_contra hne
    exact hnc (hlog b hb (Or.inr hne)).2

/-- Witness for C9: a round that was started and then crashed; the
revealing crash_end entry of its log is the true reveal payload and the
round status is crashed. -/
theorem c9_no_reveal_before_crash_witness :
    Broadcast.crashEnd 2 "s" "h" "c" 0 = revealedBroadcast ⟨"s", "h", "c", 0⟩ 2 ∧
    (crashGame (startGame 0 (initialRound ⟨"s", "h", "c", 0⟩ 2))).game.status = .crashed :=
  (c9_no_reveal_before_crash ⟨"s", "h", "c", 0⟩ 2 _
    (Reachable.step (Reachable.step Reachable.refl (Step.start 0 _)) (Step.crash _))).2
    (Broadcast.crashEnd 2 "s" "h" "c" 0)
    (by simp [crashGame, startGame, initialRound])
    (Or.inl (by simp [Broadcast.serverSeedField]))

end CrashGameService

/-! ## src/unnamed/part_004: shootout-service.ts (ShootoutService) -/

namespace ShootoutService

/-- 90 percent return to player in house mode. -/
def HOUSE_RTP : ℚ := 9 / 10

/-- 97.5 percent return to player in PvP mode (2.5 percent rake). -/
def PVP_RTP : ℚ := 975 / 1000

inductive SStatus where
  | waiting
  | countdown
  | spinning
  | completed
deriving DecidableEq

structure SGame where
  player1Id : String
  player2Id : Option String
  wagerAmount : ℚ
  session : CrashGameService.GameSession
  winnerId : Option String
  status : SStatus
deriving DecidableEq

/-- The first 8 hex characters of the digest as a 32-bit integer divided
by 0xffffffff, as startSpin normalizes it. -/
def normalized32 (hash : String) : ℚ :=
  (parseHexList (hash.data.take 8) : ℚ) / 0xffffffff

/-- startSpin: only from countdown; combines the round's seed pair,
normalizes the leading 32 bits of the digest and declares player 1 the
winner below HOUSE_RTP in house mode (no opponent) or below one half in
PvP mode; records the winner and enters spinning. -/
def startSpin (g : SGame) : Option (Bool × SGame) :=
  if g.status ≠ .countdown then none
  else
    let combinedHash := ProvablyFair.combineSeeds g.session.serverSeed g.session.clientSeed
      g.session.nonce
    let normalized := normalized32 combinedHash
    let player1Wins : Bool :=
      if g.player2Id = none then
        if normalized < HOUSE_RTP then true else false
      else
        if normalized < 1 / 2 then true else false
    let winnerId := if player1Wins then g.player1Id else g.player2Id.getD "HOUSE"
    some (player1Wins, { g with status := .spinning, winnerId := some winnerId })

/-- What settleGame computes and applies: the winner identity, pot,
rake and winner payout; the winner is credited winnerPayout against the
wager and the loser loses the wager through the balance service. -/
structure SettleResult where
  winnerId : Option String
  loserId : Option String
  winnerPayout : ℚ
  rake : ℚ
deriving DecidableEq

/-- settleGame: only from spinning; rtp by mode, pot of twice the wager,
rake of pot times (1 - rtp), winner payout of pot minus rake. -/
def settleGame (g : SGame) (player1Wins : Bool) : Option (SettleResult × SGame) :=
  if g.status ≠ .spinning then none
  else
    let rtp := if g.player2Id = none then HOUSE_RTP else PVP_RTP
    let totalPot := g.wagerAmount * 2
    let rake := totalPot * (1 - rtp)
    let winnerPayout := totalPot - rake
    let winnerId := if player1Wins then some g.player1Id else g.player2Id
    let loserId := if player1Wins then g.player2Id else some g.player1Id
    some (⟨winnerId, loserId, winnerPayout, rake⟩, { g with status := .completed })

/-- C7: every settled shootout round has pot exactly twice the wager,
rake of pot times (1 - RTP) with the house or PvP RTP constant by mode,
winner payout of pot minus rake, and winnerPayout + rake = 2 * wager
exactly, with no rounding leak. -/
theorem c7_pot_conservation (g : SGame) (player1Wins : Bool) (r : SettleResult)
    (g2 : SGame) (h : settleGame g player1Wins = some (r, g2)) :
    r.rake = (g.wagerAmount * 2) *
      (1 - (if g.player2Id = none then HOUSE_RTP else PVP_RTP)) ∧
    r.winnerPayout = g.wagerAmount * 2 - r.rake ∧
    r.winnerPayout + r.rake = 2 * g.wagerAmount := by
  unfold settleGame at h
  split at h
  · exact absurd h (by simp)
  · simp only [Option.some.injEq, Prod.mk.injEq] at h
    obtain ⟨hr, _⟩ := h
    subst hr
    refine ⟨rfl, rfl, ?_⟩
    ring

/-- Witness for C7: a PvP round with wager 1 settled for player 1. -/
theorem c7_pot_conservation_witness :
    ∃ r : SettleResult, ∃ g2 : SGame,
      settleGame ⟨"p1", some "p2", 1, ⟨"s", "h", "c", 0⟩, none, .spinning⟩ true =
        some (r, g2) ∧
      r.winnerPayout + r.rake = 2 * (1 : ℚ) := by
  have hset : settleGame ⟨"p1", some "p2", 1, ⟨"s", "h", "c", 0⟩, none, .spinning⟩ true =
      some (⟨some "p1", some "p2", 39 / 20, 1 / 20⟩,
        ⟨"p1", some "p2", 1, ⟨"s", "h", "c", 0⟩, none, .completed⟩) := by
    simp only [settleGame]
    rw [if_neg (Option.some_ne_none "p2")]
    norm_num [HOUSE_RTP, PVP_RTP]
  refine ⟨⟨some "p1", some "p2", 39 / 20, 1 / 20⟩,
    ⟨"p1", some "p2", 1, ⟨"s", "h", "c", 0⟩, none, .completed⟩, hset, ?_⟩
  exact (c7_pot_conservation
    ⟨"p1", some "p2", 1, ⟨"s", "h", "c", 0⟩, none, .spinning⟩ true
    ⟨some "p1", some "p2", 39 / 20, 1 / 20⟩
    ⟨"p1", some "p2", 1, ⟨"s", "h", "c", 0⟩, none, .completed⟩ hset).2.2

/-- C8 as stated additionally asserts the normalized value lies in [0,1);
the source divides by 0xffffffff = 2^32 - 1, so a digest whose leading 32
bits are all ones normalizes to exactly 1, outside [0,1). -/
theorem c8_counterexample :
    normalized32 "ffffffffffffffffffffffffffffffffffffffffffffffffffffffffffffffff" = 1 ∧
    ¬ normalized32 "ffffffffffffffffffffffffffffffffffffffffffffffffffffffffffffffff" < 1 := by
  have hval : parseHexList
      ("ffffffffffffffffffffffffffffffffffffffffffffffffffffffffffffffff".data.take 8) =
      0xffffffff := by
    decide
  constructor
  · unfold normalized32
    rw [hval]
    norm_num
  · unfold normalized32
    rw [hval]
    norm_num

/-- C8 (amended): startSpin, from countdown, normalizes the leading 32
bits of the combined digest by dividing by 2^32 - 1, a value in [0,1]
that reaches 1 exactly on an all-ones leading word, and declares player 1
the winner exactly when the normalized value is strictly below p, with
p = HOUSE_RTP in house mode (no opponent) and one half in PvP mode. -/
theorem c8_start_spin_winner (g : SGame) (hcd : g.status = .countdown) :
    (startSpin g).map Prod.fst = some (if normalized32 (ProvablyFair.combineSeeds
        g.session.serverSeed g.session.clientSeed g.session.nonce) <
        (if g.player2Id = none then HOUSE_RTP else 1 / 2) then true else false) ∧
      0 ≤ normalized32 (ProvablyFair.combineSeeds g.session.serverSeed
        g.session.clientSeed g.session.nonce) ∧
      normalized32 (ProvablyFair.combineSeeds g.session.serverSeed
        g.session.clientSeed g.session.nonce) ≤ 1 := by
  refine ⟨?_, ?_, ?_⟩
  · unfold startSpin
    rw [if_neg (by simp [hcd])]
    dsimp only [Option.map]
    by_cases h2 : g.player2Id = none
    · rw [if_pos h2, if_pos h2]
    · rw [if_neg h2, if_neg h2]
  · unfold normalized32
    positivity
  · unfold normalized32
    rw [div_le_one (by norm_num)]
    have h := parseHexList_lt ((ProvablyFair.combineSeeds g.session.serverSeed
      g.session.clientSeed g.session.nonce).data.take 8) 8 (by
        have := List.length_take 8 (ProvablyFair.combineSeeds g.session.serverSeed
          g.session.clientSeed g.session.nonce).data
        omega)
    have h16 : (16 : ℕ) ^ 8 = 4294967296 := by norm_num
    have h2 : parseHexList ((ProvablyFair.combineSeeds g.session.serverSeed
        g.session.clientSeed g.session.nonce).data.take 8) ≤ 4294967295 := by omega
    exact_mod_cast h2

/-- Witness for the amended C8 at a concrete house-mode countdown game. -/
theorem c8_start_spin_winner_witness :
    (startSpin ⟨"p1", none, 1, ⟨"s", "h", "c", 0⟩, none, .countdown⟩).map Prod.fst =
      some (if normalized32 (ProvablyFair.combineSeeds "s" "c" 0) <
        (if (none : Option String) = none then HOUSE_RTP else 1 / 2) then true else false) ∧
    0 ≤ normalized32 (ProvablyFair.combineSeeds "s" "c" 0) ∧
    normalized32 (ProvablyFair.combineSeeds "s" "c" 0) ≤ 1 :=
  c8_start_spin_winner ⟨"p1", none, 1, ⟨"s", "h", "c", 0⟩, none, .countdown⟩ rfl

end ShootoutService

/-! ## src/lib/db/services/deposit.ts (DepositService)

The instant-withdrawal path against the custodial wallet, and its
background settlement with reversal on a failed blockchain transfer.
The rate limiter, address validation and record bookkeeping that do not
touch the wallet amounts are outside this model; validateAmount's
decimal-place bound (at most 9) is the exact representability of
amount * 10^9 as an integer. -/

namespace DepositService

/-- sanitizeAmount: Math.floor(amount * 10^9) / 10^9. -/
def sanitizeAmount (q : ℚ) : ℚ :=
  (⌊q * 10 ^ 9⌋ : ℚ) / 10 ^ 9

/-- validateAmount: at least MIN_AMOUNT = 10^-7, at most
MAX_AMOUNT = 10^9, at most 9 decimal places. -/
def validateAmountOk (a : ℚ) : Prop :=
  1 / 10 ^ 7 ≤ a ∧ a ≤ 10 ^ 9 ∧ ∃ n : ℤ, a * 10 ^ 9 = n

instance (a : ℚ) : Decidable (validateAmountOk a) := by
  unfold validateAmountOk
  have : (∃ n : ℤ, a * 10 ^ 9 = n) ↔ (a * 10 ^ 9).den = 1 := by
    constructor
    · rintro ⟨n, hn⟩
      rw [hn]
      exact Rat.den_intCast n
    · intro h
      exact ⟨(a * 10 ^ 9).num, ((a * 10 ^ 9).den_eq_one_iff.mp h).symm⟩
  rw [this]
  infer_instance

inductive WithdrawalStatus where
  | processing
  | confirmed
  | failed
deriving DecidableEq

/-- requestWithdrawal, restricted to its wallet mutation: validate the
amount, check it against the sanitized withdrawable balance, then in one
transaction re-check and debit the balance; returns the debited wallet
and the sanitized amount handed to the background job. -/
def requestWithdrawal (w : BalanceService.Wallet) (amount : ℚ) :
    Option (BalanceService.Wallet × ℚ) :=
  if ¬ validateAmountOk amount then none
  else
    let sanitizedAmount := sanitizeAmount amount
    let withdrawableBalance := sanitizeAmount
      (w.balance - w.pendingBalance - w.lockedBalance)
    if withdrawableBalance < sanitizedAmount then none
    else
      let newBalance := sanitizeAmount (w.balance - sanitizedAmount)
      some ({ w with balance := newBalance,
                     lowestBalance := min w.lowestBalance newBalance }, sanitizedAmount)

/-- processWithdrawalBackground: on a successful transfer mark the
withdrawal confirmed; on failure one transaction credits the amount back
to the balance and marks the withdrawal failed. -/
def processWithdrawalBackground (transferSucceeds : Bool)
    (w : BalanceService.Wallet) (amount : ℚ) :
    BalanceService.Wallet × WithdrawalStatus :=
  if transferSucceeds then (w, .confirmed)
  else ({ w with balance := w.balance + amount }, .failed)

theorem sanitizeAmount_of_int (q : ℚ) (n : ℤ) (h : q * 10 ^ 9 = n) :
    sanitizeAmount q = q := by
  unfold sanitizeAmount
  rw [h, Int.floor_intCast, ← h]
  field_simp

theorem sanitizeAmount_mul_int (q : ℚ) :
    ∃ n : ℤ, sanitizeAmount q * 10 ^ 9 = n := by
  refine ⟨⌊q * 10 ^ 9⌋, ?_⟩
  unfold sanitizeAmount
  field_simp

/-- C6 (amended): for a wallet whose balance has at most 9 decimal
places (the precision the service itself enforces on every amount), a
withdrawal whose settlement transfer fails ends, after the background
reconciliation, with the balance exactly equal to its pre-request value,
and the same transaction marks the pending withdrawal failed. -/
theorem c6_withdrawal_reversal (w : BalanceService.Wallet) (amount : ℚ)
    (hb : ∃ n : ℤ, w.balance * 10 ^ 9 = n)
    (w1 : BalanceService.Wallet) (a : ℚ)
    (hreq : requestWithdrawal w amount = some (w1, a)) :
    (processWithdrawalBackground false w1 a).1.balance = w.balance ∧
    (processWithdrawalBackground false w1 a).2 = .failed := by
  obtain ⟨nb, hnb⟩ := hb
  unfold requestWithdrawal at hreq
  split at hreq
  · exact absurd hreq (by simp)
  · dsimp only at hreq
    split at hreq
    · exact absurd hreq (by simp)
    · simp only [Option.some.injEq, Prod.mk.injEq] at hreq
      obtain ⟨hw1, ha⟩ := hreq
      obtain ⟨na, hna⟩ := sanitizeAmount_mul_int amount
      have hdiff : (w.balance - sanitizeAmount amount) * 10 ^ 9 = ((nb - na : ℤ) : ℚ) := by
        push_cast
        rw [sub_mul, hnb, hna]
      have hsan : sanitizeAmount (w.balance - sanitizeAmount amount) =
          w.balance - sanitizeAmount amount :=
        sanitizeAmount_of_int _ _ hdiff
      constructor
      · show ((processWithdrawalBackground false w1 a).1).balance = w.balance
        unfold processWithdrawalBackground
        rw [if_neg (by simp)]
        rw [← hw1, ← ha]
        show sanitizeAmount (w.balance - sanitizeAmount amount) + sanitizeAmount amount
          = w.balance
        rw [hsan]
        ring
      · unfold processWithdrawalBackground
        rw [if_neg (by simp)]

/-- Witness for the amended C6: balance 5, withdrawal of 1 whose
transfer fails; the account ends back at 5 with the withdrawal failed. -/
theorem c6_withdrawal_reversal_witness :
    requestWithdrawal ⟨5, 0, 0, 0, 5⟩ 1 = some (⟨4, 0, 0, 0, 5⟩, 1) ∧
    (processWithdrawalBackground false ⟨4, 0, 0, 0, 5⟩ 1).1.balance = (5 : ℚ) ∧
    (processWithdrawalBackground false ⟨4, 0, 0, 0, 5⟩ 1).2 = .failed := by
  have hreq : requestWithdrawal ⟨5, 0, 0, 0, 5⟩ 1 = some (⟨4, 0, 0, 0, 5⟩, 1) := by
    have hval : validateAmountOk 1 := by
      refine ⟨by norm_num, by norm_num, ⟨10 ^ 9, by norm_num⟩⟩
    unfold requestWithdrawal
    rw [if_neg (by simpa using hval)]
    have h1 : sanitizeAmount 1 = 1 := by
      unfold sanitizeAmount
      norm_num
    have h5 : sanitizeAmount ((5 : ℚ) - 0 - 0) = 5 := by
      unfold sanitizeAmount
      norm_num
    have h4 : sanitizeAmount ((5 : ℚ) - 1) = 4 := by
      unfold sanitizeAmount
      norm_num
    dsimp only
    rw [h1, h5]
    rw [if_neg (by norm_num)]
    rw [h4]
    norm_num
  refine ⟨hreq, c6_withdrawal_reversal ⟨5, 0, 0, 0, 5⟩ 1 ⟨5 * 10 ^ 9, by norm_num⟩
    ⟨4, 0, 0, 0, 5⟩ 1 hreq⟩

/-- C6 counterexample: the claim as stated, with no precondition on the
stored balance, fails: for a balance of 5 + 10^-10 (reachable, since bet
wagers are not decimal-validated), the debit truncates the balance to 9
decimal places, so after the failed-transfer refund the balance is 5,
not the pre-request value. -/
theorem c6_counterexample :
    requestWithdrawal ⟨5 + 1 / 10 ^ 10, 0, 0, 0, 0⟩ 1 = some (⟨4, 0, 0, 0, 0⟩, 1) ∧
    (processWithdrawalBackground false ⟨4, 0, 0, 0, 0⟩ 1).1.balance = 5 ∧
    (5 : ℚ) ≠ 5 + 1 / 10 ^ 10 := by
  refine ⟨?_, ?_, by norm_num⟩
  · have hval : validateAmountOk 1 := by
      refine ⟨by norm_num, by norm_num, ⟨10 ^ 9, by norm_num⟩⟩
    unfold requestWithdrawal
    rw [if_neg (by simpa using hval)]
    have h1 : sanitizeAmount 1 = 1 := by
      unfold sanitizeAmount
      norm_num
    have h5 : sanitizeAmount ((5 + 1 / 10 ^ 10 : ℚ) - 0 - 0) = 5 := by
      unfold sanitizeAmount
      norm_num
    have h4 : sanitizeAmount ((5 + 1 / 10 ^ 10 : ℚ) - 1) = 4 := by
      unfold sanitizeAmount
      norm_num
    dsimp only
    rw [h1, h5]
    rw [if_neg (by norm_num)]
    rw [h4]
    norm_num
  · unfold processWithdrawalBackground
    rw [if_neg (by simp)]
    norm_num

end DepositService

end Drive
